import Mathlib

/-!
Verification of the ai-screening-service core: document chunking and
content-addressed ingestion (`scripts/ingest.py`), the retrying LLM client,
JSON extraction and schema validation, RAG retrieval, and the three-stage
evaluation pipeline (`app/services.py`).

Python strings are modelled as `List Char`; machine words as `Nat` reduced
modulo `2 ^ 32` where overflow matters; raised exceptions as `Except PyExn`.
-/

/-- Shorthand used to build concrete `List Char` values from string literals. -/
def str (s : String) : List Char := s.toList

/-- Exceptions raised by the Python code, abstracted to their kind. -/
inductive PyExn where
  /-- the `Exception("Invalid JSON response from LLM: ...")` of `parse_llm_json`. -/
  | invalidJSON
  /-- the `Exception("LLM output schema mismatch: ...")` of `parse_llm_json`. -/
  | schemaMismatch
  /-- Python `TypeError` (e.g. `Model(**data)` where `data` is not a dict). -/
  | typeError
  /-- the `Exception("Koneksi ChromaDB tidak tersedia.")` of `query_rag`. -/
  | chromaUnavailable
  /-- a transient transport/service failure from the LLM service. -/
  | llmUnavailable
  /-- any other exception, carrying its message. -/
  | generic (msg : List Char)
deriving DecidableEq, Repr

/-- Python `str.isspace` classification for the characters `str.strip()`
removes: space, tab, newline, carriage return, vertical tab, form feed. -/
def isPySpace (c : Char) : Bool :=
  c = ' ' || c = '\t' || c = '\n' || c = '\r' || c = '\x0b' || c = '\x0c'

/-- Python `str.lstrip()`. -/
def lstrip (s : List Char) : List Char := s.dropWhile isPySpace

/-- Python `str.rstrip()`. -/
def rstrip (s : List Char) : List Char := (s.reverse.dropWhile isPySpace).reverse

/-- Python `str.strip()`. -/
def pstrip (s : List Char) : List Char := rstrip (lstrip s)

/-- Python `text.split("\n\n")`: split on non-overlapping occurrences of the
two-newline separator, scanning left to right. -/
def splitOnBlank : List Char → List (List Char)
  | [] => [[]]
  | '\n' :: '\n' :: rest => [] :: splitOnBlank rest
  | c :: rest =>
    match splitOnBlank rest with
    | [] => [[c]]
    | p :: ps => (c :: p) :: ps

/-- Line 73 of `scripts/ingest.py`:
`paragraphs = [p.strip() for p in text.split("\n\n") if p.strip()]`. -/
def paragraphs (text : List Char) : List (List Char) :=
  ((splitOnBlank text).map pstrip).filter (fun p => p ≠ [])

/-- One chunk produced by `split_text_into_chunks`: its text together with
its metadata `{"source": source_name}`. -/
structure Chunk where
  text : List Char
  source : List Char
deriving DecidableEq, Repr

/-- Two-character separator `"\n\n"` appended after each packed paragraph. -/
def sep2 : List Char := ['\n', '\n']

/-- Loop of `split_text_into_chunks` (lines 75-91 of `scripts/ingest.py`):
greedily packs the remaining paragraphs into `current_chunk`, emitting
`current_chunk.strip()` whenever the next paragraph does not fit, and once
more at the end if non-empty. -/
def packLoop (chunk_size : Nat) (source : List Char) :
    List (List Char) → List Char → List Chunk
  | [], current =>
    if current ≠ [] then [⟨pstrip current, source⟩] else []
  | p :: ps, current =>
    if current.length + p.length + 2 ≤ chunk_size then
      packLoop chunk_size source ps (current ++ (p ++ sep2))
    else
      (if current ≠ [] then [⟨pstrip current, source⟩] else []) ++
        packLoop chunk_size source ps (p ++ sep2)

set_option linter.unusedVariables false in
/-- Function `split_text_into_chunks(text, source_name, chunk_size=1000,
chunk_overlap=100)` of `scripts/ingest.py`. The `chunk_overlap` parameter is
accepted and, as in the source, never read. -/
def split_text_into_chunks (text source_name : List Char)
    (chunk_size : Nat := 1000) (chunk_overlap : Nat := 100) : List Chunk :=
  packLoop chunk_size source_name (paragraphs text) []

example :
    split_text_into_chunks (str "aaa\n\nbbb\n\nccc") (str "s") 10 100 =
      [⟨str "aaa\n\nbbb", str "s"⟩, ⟨str "ccc", str "s"⟩] := by decide

example :
    split_text_into_chunks (str "aaaaaaaaaaaa\n\nbb") (str "s") 8 100 =
      [⟨str "aaaaaaaaaaaa", str "s"⟩, ⟨str "bb", str "s"⟩] := by decide

example : split_text_into_chunks (str "") (str "s") 1000 100 = [] := by decide

/-! ### Algebra of the packing loop -/

/-- Contents of `current_chunk` when it holds paragraphs `qs`: each paragraph
followed by the two-character separator. -/
def joinSep : List (List Char) → List Char
  | [] => []
  | p :: ps => p ++ sep2 ++ joinSep ps

/-- Paragraphs joined with the separator between (not after) them: the text of
an emitted chunk holding paragraphs `qs`. -/
def joinInner : List (List Char) → List Char
  | [] => []
  | [p] => p
  | p :: q :: ps => p ++ sep2 ++ joinInner (q :: ps)

/-- Paragraph with no leading or trailing Python whitespace, and non-empty:
the shape of every element of `paragraphs text`. -/
def noEdgeSpace (p : List Char) : Bool :=
  !p.isEmpty && !isPySpace (p.headD ' ') && !isPySpace (p.reverse.headD ' ')

lemma joinSep_append_singleton (qs : List (List Char)) (p : List Char) :
    joinSep (qs ++ [p]) = joinSep qs ++ (p ++ sep2) := by
  induction qs with
  | nil => simp [joinSep]
  | cons q qs ih => simp [joinSep, ih]

lemma joinSep_ne_nil {qs : List (List Char)} (h : qs ≠ []) : joinSep qs ≠ [] := by
  cases qs with
  | nil => exact absurd rfl h
  | cons q qs => simp [joinSep, sep2]

lemma joinSep_eq_joinInner_append {qs : List (List Char)} (h : qs ≠ []) :
    joinSep qs = joinInner qs ++ sep2 := by
  induction qs with
  | nil => exact absurd rfl h
  | cons q qs ih =>
    cases qs with
    | nil => simp [joinSep, joinInner]
    | cons r rs =>
      calc joinSep (q :: r :: rs) = q ++ sep2 ++ joinSep (r :: rs) := rfl
        _ = q ++ sep2 ++ (joinInner (r :: rs) ++ sep2) := by rw [ih (by simp)]
        _ = joinInner (q :: r :: rs) ++ sep2 := by simp [joinInner]

lemma headD_append_of_ne_nil {l l' : List Char} (h : l ≠ []) (d : Char) :
    (l ++ l').headD d = l.headD d := by
  cases l with
  | nil => exact absurd rfl h
  | cons c t => simp

lemma head_dropWhile_false (p : Char → Bool) (l : List Char) (d : Char)
    (h : l.dropWhile p ≠ []) : p ((l.dropWhile p).headD d) = false := by
  induction l with
  | nil => simp at h
  | cons c t ih =>
    by_cases hc : p c
    · rw [List.dropWhile_cons] at h ⊢
      simp only [hc, if_true] at h ⊢
      exact ih h
    · rw [List.dropWhile_cons]
      simp [hc]

lemma lstrip_eq_self {X : List Char} (hne : X ≠ [])
    (hh : isPySpace (X.headD ' ') = false) : lstrip X = X := by
  cases X with
  | nil => exact absurd rfl hne
  | cons c t =>
    simp only [List.headD_cons] at hh
    simp [lstrip, List.dropWhile_cons, hh]

lemma rstrip_eq_self {X : List Char} (hne : X ≠ [])
    (hl : isPySpace (X.reverse.headD ' ') = false) : rstrip X = X := by
  have hrev : X.reverse ≠ [] := by simpa using hne
  rw [rstrip]
  cases hx : X.reverse with
  | nil => exact absurd hx hrev
  | cons c t =>
    rw [hx] at hl
    simp only [List.headD_cons] at hl
    rw [List.dropWhile_cons]
    simp only [hl, Bool.false_eq_true, if_false]
    rw [← hx, List.reverse_reverse]

lemma rstrip_append_sep2 {X : List Char} (hne : X ≠ [])
    (hl : isPySpace (X.reverse.headD ' ') = false) : rstrip (X ++ sep2) = X := by
  have hrev : X.reverse ≠ [] := by simpa using hne
  rw [rstrip, List.reverse_append]
  have : sep2.reverse = ['\n', '\n'] := by decide
  rw [this]
  have hnl : isPySpace '\n' = true := by decide
  simp only [List.cons_append, List.nil_append]
  rw [List.dropWhile_cons, List.dropWhile_cons]
  simp only [hnl, if_true]
  cases hx : X.reverse with
  | nil => exact absurd hx hrev
  | cons c t =>
    rw [hx] at hl
    simp only [List.headD_cons] at hl
    rw [List.dropWhile_cons]
    simp only [hl, Bool.false_eq_true, if_false]
    rw [← hx, List.reverse_reverse]

lemma pstrip_append_sep2 {X : List Char} (h : noEdgeSpace X) :
    pstrip (X ++ sep2) = X := by
  rw [noEdgeSpace] at h
  simp only [Bool.and_eq_true, Bool.not_eq_true'] at h
  obtain ⟨⟨hne0, hh⟩, hl⟩ := h
  have hne : X ≠ [] := by
    intro hx; rw [hx] at hne0; simp at hne0
  have hh2 : isPySpace ((X ++ sep2).headD ' ') = false := by
    rw [headD_append_of_ne_nil hne]; exact hh
  have happ : X ++ sep2 ≠ [] := by simp [sep2]
  rw [pstrip, lstrip_eq_self happ hh2]
  exact rstrip_append_sep2 hne hl

lemma pstrip_ne_nil_noEdgeSpace {x : List Char} (h : pstrip x ≠ []) :
    noEdgeSpace (pstrip x) := by
  set q := lstrip x with hq
  have hqne : q ≠ [] := by
    intro hnil
    rw [pstrip, ← hq, hnil] at h
    simp [rstrip] at h
  have hqh : isPySpace (q.headD ' ') = false :=
    head_dropWhile_false isPySpace x ' ' hqne
  have hps : pstrip x = rstrip q := by rw [pstrip, ← hq]
  rw [hps] at h ⊢
  have hrevq : (rstrip q).reverse = q.reverse.dropWhile isPySpace := by
    rw [rstrip, List.reverse_reverse]
  rw [noEdgeSpace]
  simp only [Bool.and_eq_true, Bool.not_eq_true']
  refine ⟨⟨?_, ?_⟩, ?_⟩
  · cases hx : rstrip q with
    | nil => exact absurd hx h
    | cons c t => simp
  · have hpre : rstrip q <+: q := by
      have hsuf : q.reverse.dropWhile isPySpace <:+ q.reverse :=
        List.dropWhile_suffix _
      have := List.reverse_prefix.mpr hsuf
      simpa [rstrip] using this
    obtain ⟨t, ht⟩ := hpre
    have heq : (rstrip q ++ t).headD ' ' = (rstrip q).headD ' ' :=
      headD_append_of_ne_nil h ' '
    rw [ht] at heq
    rw [← heq]; exact hqh
  · have hrevne : (rstrip q).reverse ≠ [] := by simpa using h
    rw [hrevq] at hrevne ⊢
    exact head_dropWhile_false isPySpace q.reverse ' ' hrevne

lemma paragraphs_noEdgeSpace (text : List Char) :
    ∀ p ∈ paragraphs text, noEdgeSpace p := by
  intro p hp
  rw [paragraphs, List.mem_filter] at hp
  obtain ⟨hmem, hne⟩ := hp
  rw [List.mem_map] at hmem
  obtain ⟨x, _, rfl⟩ := hmem
  exact pstrip_ne_nil_noEdgeSpace (by simpa using hne)

lemma isEmpty_false_iff {p : List Char} : p.isEmpty = false ↔ p ≠ [] := by
  cases p <;> simp

lemma noEdgeSpace_iff {p : List Char} :
    noEdgeSpace p = true ↔
      p ≠ [] ∧ isPySpace (p.headD ' ') = false ∧
        isPySpace (p.reverse.headD ' ') = false := by
  rw [noEdgeSpace]
  simp only [Bool.and_eq_true, Bool.not_eq_true', isEmpty_false_iff]
  tauto

lemma noEdgeSpace_joinInner {qs : List (List Char)} (hne : qs ≠ [])
    (h : ∀ q ∈ qs, noEdgeSpace q) : noEdgeSpace (joinInner qs) := by
  induction qs with
  | nil => exact absurd rfl hne
  | cons q ps ih =>
    cases ps with
    | nil => simpa [joinInner] using h q (by simp)
    | cons r rs =>
      have hq := (noEdgeSpace_iff).mp (h q (by simp))
      have hrest : noEdgeSpace (joinInner (r :: rs)) :=
        ih (by simp) (fun x hx => h x (by simp [hx]))
      have hr := (noEdgeSpace_iff).mp hrest
      rw [noEdgeSpace_iff]
      have hJ : joinInner (q :: r :: rs) = q ++ (sep2 ++ joinInner (r :: rs)) := by
        simp [joinInner]
      refine ⟨?_, ?_, ?_⟩
      · rw [hJ]; simp [hq.1]
      · rw [hJ, headD_append_of_ne_nil hq.1]; exact hq.2.1
      · rw [hJ, List.reverse_append, List.reverse_append]
        have hJr : (joinInner (r :: rs)).reverse ≠ [] := by
          simpa using hr.1
        rw [List.append_assoc, headD_append_of_ne_nil hJr]
        exact hr.2.2

lemma pstrip_joinSep {qs : List (List Char)} (hne : qs ≠ [])
    (h : ∀ q ∈ qs, noEdgeSpace q) : pstrip (joinSep qs) = joinInner qs := by
  rw [joinSep_eq_joinInner_append hne]
  exact pstrip_append_sep2 (noEdgeSpace_joinInner hne h)

lemma length_joinSep_append (qs : List (List Char)) (p : List Char) :
    (joinSep (qs ++ [p])).length = (joinSep qs).length + p.length + 2 := by
  rw [joinSep_append_singleton]
  simp [sep2]
  omega

lemma length_joinInner_add_two {qs : List (List Char)} (hne : qs ≠ []) :
    (joinInner qs).length + 2 = (joinSep qs).length := by
  rw [joinSep_eq_joinInner_append hne]
  simp [sep2]

lemma joinSep_singleton (p : List Char) : joinSep [p] = p ++ sep2 := by
  simp [joinSep]

lemma packLoop_partition (cs : Nat) (src : List Char) :
    ∀ (rem qs : List (List Char)),
      (∀ q ∈ qs, noEdgeSpace q) → (∀ p ∈ rem, noEdgeSpace p) →
      ∃ pss : List (List (List Char)),
        (∀ g ∈ pss, g ≠ []) ∧ pss.flatten = qs ++ rem ∧
        packLoop cs src rem (joinSep qs) =
          pss.map (fun g => ⟨joinInner g, src⟩) := by
  intro rem
  induction rem with
  | nil =>
    intro qs hqs _
    by_cases hq : qs = []
    · subst hq
      exact ⟨[], by simp, by simp, by simp [packLoop, joinSep]⟩
    · refine ⟨[qs], by simpa using hq, by simp, ?_⟩
      have hne := joinSep_ne_nil hq
      simp only [packLoop, if_pos hne, List.map_cons, List.map_nil]
      rw [pstrip_joinSep hq hqs]
  | cons p ps ih =>
    intro qs hqs hrem
    have hp : noEdgeSpace p := hrem p (by simp)
    have hps : ∀ x ∈ ps, noEdgeSpace x := fun x hx => hrem x (by simp [hx])
    by_cases hfit : (joinSep qs).length + p.length + 2 ≤ cs
    · have hqs' : ∀ q ∈ qs ++ [p], noEdgeSpace q := by
        intro q hq
        rcases List.mem_append.mp hq with h | h
        · exact hqs q h
        · simp at h; subst h; exact hp
      obtain ⟨pss, hg, hjoin, heq⟩ := ih (qs ++ [p]) hqs' hps
      refine ⟨pss, hg, ?_, ?_⟩
      · rw [hjoin]; simp
      · simp only [packLoop, if_pos hfit]
        rw [← joinSep_append_singleton]
        exact heq
    · obtain ⟨pss, hg, hjoin, heq⟩ := ih [p] (by simpa using hp) hps
      by_cases hq : qs = []
      · subst hq
        refine ⟨pss, hg, by simpa using hjoin, ?_⟩
        simp only [packLoop, if_neg hfit]
        have : joinSep ([] : List (List Char)) = [] := rfl
        rw [this]
        simp only [ne_eq, not_true_eq_false, if_neg (by simp : ¬(([] : List Char) ≠ []))]
        rw [← joinSep_singleton]
        simpa using heq
      · refine ⟨qs :: pss, ?_, ?_, ?_⟩
        · intro g hgm
          rcases List.mem_cons.mp hgm with h | h
          · subst h; exact hq
          · exact hg g h
        · simp [hjoin]
        · have hne := joinSep_ne_nil hq
          simp only [packLoop, if_neg hfit, if_pos hne]
          rw [pstrip_joinSep hq hqs, List.map_cons, ← joinSep_singleton, heq]
          simp

lemma packLoop_length_bound (cs : Nat) (src : List Char) :
    ∀ (rem qs : List (List Char)),
      (∀ q ∈ qs, noEdgeSpace q) → (∀ p ∈ rem, noEdgeSpace p) →
      (qs = [] ∨ (joinSep qs).length ≤ cs ∨ ∃ p0, qs = [p0]) →
      ∀ c ∈ packLoop cs src rem (joinSep qs),
        c.text.length ≤ cs ∨ (c.text ∈ qs ++ rem ∧ cs < c.text.length) := by
  intro rem
  induction rem with
  | nil =>
    intro qs hqs _ hinv c hc
    by_cases hq : qs = []
    · subst hq
      simp [packLoop, joinSep] at hc
    · have hne := joinSep_ne_nil hq
      simp only [packLoop, if_pos hne, List.mem_singleton] at hc
      subst hc
      simp only [pstrip_joinSep hq hqs]
      rcases hinv with h | h | ⟨p0, h⟩
      · exact absurd h hq
      · left
        have := length_joinInner_add_two hq
        omega
      · subst h
        by_cases hlen : (joinInner [p0]).length ≤ cs
        · exact Or.inl hlen
        · right
          refine ⟨?_, by omega⟩
          have : joinInner [p0] = p0 := by simp [joinInner]
          rw [this]
          simp
  | cons p ps ih =>
    intro qs hqs hrem hinv c hc
    have hp : noEdgeSpace p := hrem p (by simp)
    have hps : ∀ x ∈ ps, noEdgeSpace x := fun x hx => hrem x (by simp [hx])
    by_cases hfit : (joinSep qs).length + p.length + 2 ≤ cs
    · simp only [packLoop, if_pos hfit] at hc
      rw [← joinSep_append_singleton] at hc
      have hqs' : ∀ q ∈ qs ++ [p], noEdgeSpace q := by
        intro q hq
        rcases List.mem_append.mp hq with h | h
        · exact hqs q h
        · simp at h; subst h; exact hp
      have hinv' : qs ++ [p] = [] ∨ (joinSep (qs ++ [p])).length ≤ cs ∨
          ∃ p0, qs ++ [p] = [p0] := by
        right; left
        rw [length_joinSep_append]
        omega
      rcases ih (qs ++ [p]) hqs' hps hinv' c hc with h | ⟨hm, hgt⟩
      · exact Or.inl h
      · right
        refine ⟨?_, hgt⟩
        rw [List.append_assoc] at hm
        simpa using hm
    · simp only [packLoop, if_neg hfit, List.mem_append] at hc
      rcases hc with hc | hc
      · by_cases hq : qs = []
        · subst hq
          simp only [joinSep, ne_eq, not_true_eq_false] at hc
          simp at hc
        · have hne := joinSep_ne_nil hq
          rw [if_pos hne, List.mem_singleton] at hc
          subst hc
          simp only [pstrip_joinSep hq hqs]
          rcases hinv with h | h | ⟨p0, h⟩
          · exact absurd h hq
          · left
            have := length_joinInner_add_two hq
            omega
          · subst h
            by_cases hlen : (joinInner [p0]).length ≤ cs
            · exact Or.inl hlen
            · right
              refine ⟨?_, by omega⟩
              have : joinInner [p0] = p0 := by simp [joinInner]
              rw [this]
              simp
      · rw [← joinSep_singleton] at hc
        have hinv' : [p] = ([] : List (List Char)) ∨
            (joinSep [p]).length ≤ cs ∨ ∃ p0, [p] = [p0] :=
          Or.inr (Or.inr ⟨p, rfl⟩)
        rcases ih [p] (by simpa using hp) hps hinv' c hc with h | ⟨hm, hgt⟩
        · exact Or.inl h
        · right
          refine ⟨?_, hgt⟩
          rcases List.mem_append.mp hm with h | h
          · simp at h; subst h; simp
          · simp [h]

/-- C2: for every input text and every chunk_size, no chunk produced by
`split_text_into_chunks` has text longer than `chunk_size` characters, except
when a single paragraph alone exceeds `chunk_size`, in which case that
paragraph becomes its own oversized chunk. -/
theorem chunk_length_bounded (text src : List Char) (cs o : Nat) (c : Chunk)
    (hc : c ∈ split_text_into_chunks text src cs o) :
    c.text.length ≤ cs ∨ (c.text ∈ paragraphs text ∧ cs < c.text.length) := by
  rw [split_text_into_chunks] at hc
  have h := packLoop_length_bound cs src (paragraphs text) [] (by simp)
    (paragraphs_noEdgeSpace text) (Or.inl rfl) c hc
  simpa using h

/-- Witness for C2: the single chunk of the one-paragraph text `"aaa"` at
chunk size 10 is within the bound. -/
theorem chunk_length_bounded_witness :
    (⟨str "aaa", str "s"⟩ : Chunk) ∈
        split_text_into_chunks (str "aaa") (str "s") 10 100 ∧
      ((⟨str "aaa", str "s"⟩ : Chunk).text.length ≤ 10 ∨
        ((⟨str "aaa", str "s"⟩ : Chunk).text ∈ paragraphs (str "aaa") ∧
          10 < (⟨str "aaa", str "s"⟩ : Chunk).text.length)) :=
  ⟨by decide,
    chunk_length_bounded (str "aaa") (str "s") 10 100 ⟨str "aaa", str "s"⟩
      (by decide)⟩

/-- C7: for every input text and chunk_size, the chunks produced by
`split_text_into_chunks` partition the input's non-empty paragraphs in their
original order: some grouping `pss` of the paragraph sequence (no paragraph
dropped, duplicated, or reordered) has chunk `i`'s text equal to group `i`
joined with the two-newline separator. -/
theorem chunks_concat_paragraphs (text src : List Char) (cs o : Nat) :
    ∃ pss : List (List (List Char)),
      (∀ g ∈ pss, g ≠ []) ∧ pss.flatten = paragraphs text ∧
      split_text_into_chunks text src cs o =
        pss.map (fun g => ⟨joinInner g, src⟩) := by
  obtain ⟨pss, h1, h2, h3⟩ := packLoop_partition cs src (paragraphs text) []
    (by simp) (paragraphs_noEdgeSpace text)
  exact ⟨pss, h1, by simpa using h2, h3⟩

/-- C9: `chunk_overlap` has no effect on the output of
`split_text_into_chunks`, and no two produced chunks share paragraph content:
the paragraph occurrences are partitioned between the chunks. -/
theorem chunk_overlap_noop (text src : List Char) (cs o1 o2 : Nat) :
    split_text_into_chunks text src cs o1 =
        split_text_into_chunks text src cs o2 ∧
      ∃ pss : List (List (List Char)),
        (∀ g ∈ pss, g ≠ []) ∧ pss.flatten = paragraphs text ∧
        split_text_into_chunks text src cs o1 =
          pss.map (fun g => ⟨joinInner g, src⟩) := by
  refine ⟨rfl, ?_⟩
  obtain ⟨pss, h1, h2, h3⟩ := packLoop_partition cs src (paragraphs text) []
    (by simp) (paragraphs_noEdgeSpace text)
  exact ⟨pss, h1, by simpa using h2, h3⟩

/-! ### call_gemini_with_retry (app/services.py lines 126-144) -/

instance {ε α : Type} [DecidableEq ε] [DecidableEq α] :
    DecidableEq (Except ε α) := fun x y =>
  match x, y with
  | .ok a, .ok b => if h : a = b then isTrue (by rw [h]) else isFalse (by simp [h])
  | .error a, .error b =>
    if h : a = b then isTrue (by rw [h]) else isFalse (by simp [h])
  | .ok _, .error _ => isFalse (by simp)
  | .error _, .ok _ => isFalse (by simp)

/-- Observable outcome of one invocation of `call_gemini_with_retry`: the
value returned or exception raised, how many times `generate_content` was
called, and the sequence of `time.sleep` delays performed between attempts. -/
structure RetryOutcome where
  result : Except PyExn (List Char)
  calls : Nat
  sleeps : List Nat
deriving DecidableEq, Repr

/-- Body of the loop `for attempt in range(retries)` of
`call_gemini_with_retry`, at iteration `attempt` with `fuel` iterations of
the range remaining (`fuel = retries.toNat - attempt`; Python's
`range(retries)` runs exactly `retries.toNat` times). The behaviour of the
LLM service is the oracle `gen`: the outcome of the `i`-th
`llm_model.generate_content(prompt)` call. Exhausting the range without
returning reaches the trailing `return ""`. -/
def retryAux (gen : Nat → Except PyExn (List Char)) (retries : Int)
    (delay : Nat) : Nat → Nat → RetryOutcome
  | 0, _ => ⟨.ok [], 0, []⟩
  | fuel + 1, attempt =>
    match gen attempt with
    | .ok s => ⟨.ok s, 1, []⟩
    | .error e =>
      if (attempt : Int) < retries - 1 then
        let r := retryAux gen retries delay fuel (attempt + 1)
        ⟨r.result, r.calls + 1, delay :: r.sleeps⟩
      else ⟨.error e, 1, []⟩

/-- Function `call_gemini_with_retry(prompt, retries=3, delay=5)` of
`app/services.py`, for an initialised `llm_model` whose successive
`generate_content` outcomes are given by `gen`. -/
def call_gemini_with_retry (gen : Nat → Except PyExn (List Char))
    (retries : Int := 3) (delay : Nat := 5) : RetryOutcome :=
  retryAux gen retries delay retries.toNat 0

example :
    call_gemini_with_retry
        (fun i => if i < 2 then .error .llmUnavailable else .ok (str "hi")) 3 5 =
      ⟨.ok (str "hi"), 3, [5, 5]⟩ := by decide

example :
    call_gemini_with_retry (fun _ => .error .llmUnavailable) 3 5 =
      ⟨.error .llmUnavailable, 3, [5, 5]⟩ := by decide

/-- C1: with `retries = 3`, if the first two `generate_content` calls fail
transiently and the third succeeds, `call_gemini_with_retry` returns the
successful response text having made exactly 3 calls with the fixed `delay`
slept between consecutive attempts; if all three calls fail it re-raises the
last error after exactly 3 attempts (no 4th call), again with the fixed
delay between consecutive attempts. -/
theorem llm_retry_budget (gen : Nat → Except PyExn (List Char)) (delay : Nat)
    (e0 e1 : PyExn) (h0 : gen 0 = Except.error e0)
    (h1 : gen 1 = Except.error e1) :
    (∀ s, gen 2 = Except.ok s →
      call_gemini_with_retry gen 3 delay =
        ⟨Except.ok s, 3, [delay, delay]⟩) ∧
    (∀ e2, gen 2 = Except.error e2 →
      call_gemini_with_retry gen 3 delay =
        ⟨Except.error e2, 3, [delay, delay]⟩) := by
  constructor
  · intro s h2
    norm_num [call_gemini_with_retry, retryAux, h0, h1, h2]
  · intro e2 h2
    norm_num [call_gemini_with_retry, retryAux, h0, h1, h2]

/-- Witness for C1: a service failing twice then succeeding yields the
success after exactly 3 calls and 2 sleeps of the 5-second delay. -/
theorem llm_retry_budget_witness :
    call_gemini_with_retry
        (fun i => if i < 2 then .error .llmUnavailable else .ok (str "hi"))
        3 5 =
      ⟨.ok (str "hi"), 3, [5, 5]⟩ :=
  (llm_retry_budget
    (fun i => if i < 2 then .error .llmUnavailable else .ok (str "hi"))
    5 .llmUnavailable .llmUnavailable rfl rfl).1 (str "hi") rfl

/-- C10: with a non-positive `retries` value the loop body of
`call_gemini_with_retry` never executes: zero LLM calls are made, no error
is raised, and the trailing `return ""` (commented unreachable in the
source) is reached, returning the empty string. -/
theorem retry_nonpositive_returns_empty (gen : Nat → Except PyExn (List Char))
    (retries : Int) (delay : Nat) (h : retries ≤ 0) :
    call_gemini_with_retry gen retries delay = ⟨Except.ok [], 0, []⟩ := by
  have ht : retries.toNat = 0 := by omega
  simp [call_gemini_with_retry, ht, retryAux]

/-- Witness for C10: `retries = 0` returns the empty string with zero calls. -/
theorem retry_nonpositive_returns_empty_witness :
    call_gemini_with_retry (fun _ => .error .llmUnavailable) 0 5 =
      ⟨Except.ok [], 0, []⟩ :=
  retry_nonpositive_returns_empty (fun _ => .error .llmUnavailable) 0 5
    (by decide)

/-! ### parse_llm_json (app/services.py lines 146-177): JSON model

Python `json.loads` is modelled over `List Char` with JSON numbers as exact
rationals (the claims under audit do not depend on binary floating-point
rounding). The non-standard `NaN`/`Infinity` extensions of Python's decoder
are not modelled. -/

/-- JSON values as produced by `json.loads`; object members keep their
textual order, later duplicates winning on lookup as in a Python dict. -/
inductive Json where
  | null
  | bool (b : Bool)
  | num (q : Rat)
  | str (s : List Char)
  | arr (elems : List Json)
  | obj (members : List (List Char × Json))

/-- Whitespace skipped between JSON tokens by Python's decoder. -/
def jsonWs (c : Char) : Bool := c = ' ' || c = '\t' || c = '\n' || c = '\r'

/-- Skipping of inter-token whitespace. -/
def skipWs (s : List Char) : List Char := s.dropWhile jsonWs

/-- Value of a hexadecimal digit. -/
def hexVal (c : Char) : Option Nat :=
  if '0' ≤ c ∧ c ≤ '9' then some (c.toNat - 48)
  else if 'a' ≤ c ∧ c ≤ 'f' then some (c.toNat - 87)
  else if 'A' ≤ c ∧ c ≤ 'F' then some (c.toNat - 55)
  else none

/-- Four hex digits of a `\uXXXX` escape. -/
def parseHex4 : List Char → Option (Nat × List Char)
  | a :: b :: c :: d :: rest =>
    match hexVal a, hexVal b, hexVal c, hexVal d with
    | some va, some vb, some vc, some vd =>
      some (((va * 16 + vb) * 16 + vc) * 16 + vd, rest)
    | _, _, _, _ => none
  | _ => none

/-- Single-character JSON escapes. -/
def escChar (c : Char) : Option Char :=
  if c = '"' then some '"' else if c = '\\' then some '\\'
  else if c = '/' then some '/' else if c = 'b' then some '\x08'
  else if c = 'f' then some '\x0c' else if c = 'n' then some '\n'
  else if c = 'r' then some '\r' else if c = 't' then some '\t' else none

/-- Body of a JSON string after the opening quote; returns the decoded
characters and the input remaining after the closing quote. Surrogate pairs
in `\u` escapes are combined; a lone surrogate (not representable as a Lean
scalar value) falls back to `Char.ofNat`'s default. -/
def parseStringBody : Nat → List Char → Option (List Char × List Char)
  | 0, _ => none
  | fuel + 1, s =>
    match s with
    | [] => none
    | '"' :: rest => some ([], rest)
    | '\\' :: 'u' :: r =>
      match parseHex4 r with
      | none => none
      | some (n, r1) =>
        if 0xD800 ≤ n ∧ n < 0xDC00 then
          match r1 with
          | '\\' :: 'u' :: r2 =>
            match parseHex4 r2 with
            | some (n2, r3) =>
              if 0xDC00 ≤ n2 ∧ n2 < 0xE000 then
                (parseStringBody fuel r3).map (fun p =>
                  (Char.ofNat (0x10000 + (n - 0xD800) * 0x400 + (n2 - 0xDC00))
                    :: p.1, p.2))
              else (parseStringBody fuel r1).map (fun p =>
                (Char.ofNat n :: p.1, p.2))
            | none => (parseStringBody fuel r1).map (fun p =>
                (Char.ofNat n :: p.1, p.2))
          | _ => (parseStringBody fuel r1).map (fun p =>
              (Char.ofNat n :: p.1, p.2))
        else (parseStringBody fuel r1).map (fun p => (Char.ofNat n :: p.1, p.2))
    | '\\' :: e :: r =>
      match escChar e with
      | some c => (parseStringBody fuel r).map (fun p => (c :: p.1, p.2))
      | none => none
    | '\\' :: [] => none
    | c :: rest =>
      if c.toNat < 0x20 then none
      else (parseStringBody fuel rest).map (fun p => (c :: p.1, p.2))

/-- Value of a decimal digit. -/
def digitVal (c : Char) : Option Nat :=
  if '0' ≤ c ∧ c ≤ '9' then some (c.toNat - 48) else none

/-- Longest prefix of decimal digits. -/
def takeDigits : List Char → List Nat × List Char
  | [] => ([], [])
  | c :: rest =>
    match digitVal c with
    | some d => let p := takeDigits rest; (d :: p.1, p.2)
    | none => ([], c :: rest)

/-- Natural number denoted by a digit sequence. -/
def digitsVal (ds : List Nat) : Nat := ds.foldl (fun a d => a * 10 + d) 0

/-- Integer part per the JSON grammar: `0` or a nonzero digit followed by
digits. -/
def parseIntPart : List Char → Option (Nat × List Char)
  | '0' :: rest => some (0, rest)
  | s =>
    match takeDigits s with
    | ([], _) => none
    | (ds, rest) => some (digitsVal ds, rest)

/-- Optional fraction `.digits`; consumes nothing when absent or malformed
(the decoder's number regex simply matches less). Returns the fraction's
value, its digit count and the rest. -/
def parseFrac : List Char → Nat × Nat × List Char
  | '.' :: rest =>
    match takeDigits rest with
    | ([], _) => (0, 0, '.' :: rest)
    | (ds, r) => (digitsVal ds, ds.length, r)
  | s => (0, 0, s)

/-- Optional exponent `[eE][+-]?digits`; consumes nothing when absent or
malformed. -/
def parseExpPart : List Char → Int × List Char
  | c :: rest =>
    if c = 'e' ∨ c = 'E' then
      match rest with
      | '+' :: r2 =>
        (match takeDigits r2 with
         | ([], _) => (0, c :: rest)
         | (ds, r3) => ((digitsVal ds : Int), r3))
      | '-' :: r2 =>
        (match takeDigits r2 with
         | ([], _) => (0, c :: rest)
         | (ds, r3) => (-(digitsVal ds : Int), r3))
      | r2 =>
        (match takeDigits r2 with
         | ([], _) => (0, c :: rest)
         | (ds, r3) => ((digitsVal ds : Int), r3))
    else (0, c :: rest)
  | [] => (0, [])

/-- Rational denoted by sign, integer part, fraction value and length, and
decimal exponent: `±(ip.fraction) × 10^ex`. -/
def ratOfParts (neg : Bool) (ip fn fl : Nat) (ex : Int) : Rat :=
  let m : Nat := (ip * 10 ^ fl + fn) * 10 ^ ex.toNat
  mkRat (if neg then -(m : Int) else (m : Int)) (10 ^ fl * 10 ^ (-ex).toNat)

/-- JSON number `-?(0|[1-9][0-9]*)(\.[0-9]+)?([eE][+-]?[0-9]+)?`, as an
exact rational. -/
def parseNumberCore (s : List Char) : Option (Rat × List Char) :=
  let sgn := match s with
    | '-' :: r => (true, r)
    | _ => (false, s)
  match parseIntPart sgn.2 with
  | none => none
  | some (ip, s2) =>
    let fr := parseFrac s2
    let ex := parseExpPart fr.2.2
    some (ratOfParts sgn.1 ip fr.1 fr.2.1 ex.1, ex.2)

mutual

/-- One JSON value, leading whitespace allowed, per Python's decoder. -/
def parseValue : Nat → List Char → Option (Json × List Char)
  | 0, _ => none
  | fuel + 1, s =>
    match skipWs s with
    | [] => none
    | 'n' :: r => if r.take 3 = ['u', 'l', 'l'] then some (.null, r.drop 3)
        else none
    | 't' :: r => if r.take 3 = ['r', 'u', 'e'] then some (.bool true, r.drop 3)
        else none
    | 'f' :: r =>
      if r.take 4 = ['a', 'l', 's', 'e'] then some (.bool false, r.drop 4)
      else none
    | '"' :: r => (parseStringBody (r.length + 1) r).map (fun p => (.str p.1, p.2))
    | '\x7b' :: r => parseObjRest fuel (skipWs r)
    | '[' :: r => parseArrRest fuel (skipWs r)
    | s2 => (parseNumberCore s2).map (fun p => (.num p.1, p.2))

/-- Remainder of a JSON object after `{` and whitespace. -/
def parseObjRest : Nat → List Char → Option (Json × List Char)
  | 0, _ => none
  | fuel + 1, s =>
    match s with
    | '\x7d' :: r => some (.obj [], r)
    | _ => (parseMembers fuel s).map (fun p => (.obj p.1, p.2))

/-- Non-empty member list of a JSON object, starting at a quoted key. -/
def parseMembers : Nat → List Char →
    Option (List (List Char × Json) × List Char)
  | 0, _ => none
  | fuel + 1, s =>
    match s with
    | '"' :: r =>
      match parseStringBody (r.length + 1) r with
      | none => none
      | some (key, r1) =>
        match skipWs r1 with
        | ':' :: r2 =>
          match parseValue fuel r2 with
          | none => none
          | some (v, r3) =>
            match skipWs r3 with
            | ',' :: r4 =>
              match parseMembers fuel (skipWs r4) with
              | none => none
              | some (ms, r5) => some ((key, v) :: ms, r5)
            | '\x7d' :: r4 => some ([(key, v)], r4)
            | _ => none
        | _ => none
    | _ => none

/-- Remainder of a JSON array after `[` and whitespace. -/
def parseArrRest : Nat → List Char → Option (Json × List Char)
  | 0, _ => none
  | fuel + 1, s =>
    match s with
    | ']' :: r => some (.arr [], r)
    | _ => (parseElems fuel s).map (fun p => (.arr p.1, p.2))

/-- Non-empty element list of a JSON array. -/
def parseElems : Nat → List Char → Option (List Json × List Char)
  | 0, _ => none
  | fuel + 1, s =>
    match parseValue fuel s with
    | none => none
    | some (v, r) =>
      match skipWs r with
      | ',' :: r2 =>
        match parseElems fuel r2 with
        | some (vs, r3) => some (v :: vs, r3)
        | none => none
      | ']' :: r2 => some ([v], r2)
      | _ => none

end

/-- Python `json.loads`: parse one value and require only whitespace after
it. `none` models a raised `json.JSONDecodeError`. -/
def json_loads (s : List Char) : Option Json :=
  match parseValue (3 * s.length + 3) s with
  | some (v, rest) => if skipWs rest = [] then some v else none
  | none => none




/-! ### parse_llm_json: extraction, schema validation -/

/-- Index of the first occurrence of a character. -/
def firstIdxOf (c : Char) : List Char → Option Nat
  | [] => none
  | a :: rest => if a = c then some 0 else (firstIdxOf c rest).map (· + 1)

/-- Result of `re.search(r"\x7b.*\x7d", llm_output, re.DOTALL)`: the match
starts at the first `{` (the only position where the pattern can start) and
the greedy `.*` extends it to the last `}` of the whole text; there is a
match exactly when some `}` occurs after some `{`. -/
def braceSpan (s : List Char) : Option (List Char) :=
  match firstIdxOf '\x7b' s, firstIdxOf '\x7d' s.reverse with
  | some i, some jr =>
    let j := s.length - 1 - jr
    if i < j then some ((s.drop i).take (j - i + 1)) else none
  | _, _ => none

/-- Pydantic model `CvEvaluationOutput` of `app/services.py`. -/
structure CvEvaluationOutput where
  cv_match_rate : Rat
  cv_feedback : List Char
deriving DecidableEq, Repr

/-- Pydantic model `ProjectEvaluationOutput` of `app/services.py`. -/
structure ProjectEvaluationOutput where
  project_score : Rat
  project_feedback : List Char
deriving DecidableEq, Repr

/-- Pydantic model `FinalSummaryOutput` of `app/services.py`. -/
structure FinalSummaryOutput where
  overall_summary : List Char
deriving DecidableEq, Repr

/-- Lookup in a decoded JSON object: `json.loads` builds a `dict`, so a
duplicated key takes its last occurrence. -/
def lookupLast (ms : List (List Char × Json)) (k : List Char) : Option Json :=
  (ms.reverse.find? (fun m => m.1 = k)).map (fun m => m.2)

/-- Pydantic (lax-mode) validation of a `float` field: accepts JSON numbers
and numeric strings, rejects booleans, null, arrays and objects. -/
def coerceFloat : Json → Option Rat
  | .num q => some q
  | .str s => (parseNumberCore s).bind (fun p => if p.2 = [] then some p.1 else none)
  | _ => none

/-- Pydantic (lax-mode) validation of a `str` field: accepts only JSON
strings. -/
def coerceStr : Json → Option (List Char)
  | .str s => some s
  | _ => none

/-- Validation `CvEvaluationOutput(**json_data)`: a non-dict value raises
`TypeError` at the `**` unpacking (re-raised by the generic handler); a dict
missing a required field or with a field of the wrong type raises
pydantic's `ValidationError`, turned into the schema-mismatch exception. -/
def validateCv : Json → Except PyExn CvEvaluationOutput
  | .obj ms =>
    match lookupLast ms (str "cv_match_rate"), lookupLast ms (str "cv_feedback") with
    | some v1, some v2 =>
      match coerceFloat v1, coerceStr v2 with
      | some r, some f => .ok ⟨r, f⟩
      | _, _ => .error .schemaMismatch
    | _, _ => .error .schemaMismatch
  | _ => .error .typeError

/-- Validation `ProjectEvaluationOutput(**json_data)`. -/
def validateProject : Json → Except PyExn ProjectEvaluationOutput
  | .obj ms =>
    match lookupLast ms (str "project_score"),
        lookupLast ms (str "project_feedback") with
    | some v1, some v2 =>
      match coerceFloat v1, coerceStr v2 with
      | some r, some f => .ok ⟨r, f⟩
      | _, _ => .error .schemaMismatch
    | _, _ => .error .schemaMismatch
  | _ => .error .typeError

/-- Validation `FinalSummaryOutput(**json_data)`. -/
def validateSummary : Json → Except PyExn FinalSummaryOutput
  | .obj ms =>
    match lookupLast ms (str "overall_summary") with
    | some v1 =>
      match coerceStr v1 with
      | some f => .ok ⟨f⟩
      | none => .error .schemaMismatch
    | none => .error .schemaMismatch
  | _ => .error .typeError

/-- Function `parse_llm_json(llm_output, output_model)` of `app/services.py`
(lines 146-177): extract the `\x7b.*\x7d` span (falling back to the whole
text when the regex does not match), `json.loads` it (`invalidJSON` on
failure), then validate against the pydantic model. -/
def parse_llm_json {α : Type} (llm_output : List Char)
    (validate : Json → Except PyExn α) : Except PyExn α :=
  let json_str := match braceSpan llm_output with
    | some m => m
    | none => llm_output
  match json_loads json_str with
  | none => .error .invalidJSON
  | some v => validate v

example :
    parse_llm_json
        (str "here you go: \x7b\"cv_match_rate\": 0.8, \"cv_feedback\": \"ok\"\x7d")
        validateCv =
      .ok ⟨mkRat 8 10, str "ok"⟩ := by decide

example : parse_llm_json (str "not json") validateCv =
    .error .invalidJSON := by decide

example : parse_llm_json (str "\x7b\"cv_match_rate\": 0.8\x7d") validateCv =
    .error .schemaMismatch := by decide

lemma firstIdxOf_spec {c : Char} : ∀ {l : List Char} {i : Nat},
    firstIdxOf c l = some i → c ∉ l.take i ∧ ∃ t, l.drop i = c :: t := by
  intro l
  induction l with
  | nil => intro i h; simp [firstIdxOf] at h
  | cons a rest ih =>
    intro i h
    rw [firstIdxOf] at h
    by_cases hac : a = c
    · rw [if_pos hac] at h
      injection h with h
      subst hac
      rw [← h]
      exact ⟨by simp, rest, by simp⟩
    · rw [if_neg hac] at h
      match hi : firstIdxOf c rest with
      | none => rw [hi] at h; simp at h
      | some i2 =>
        rw [hi] at h
        simp only [Option.map_some'] at h
        injection h with h
        obtain ⟨h1, t, h2⟩ := ih hi
        rw [← h]
        constructor
        · intro hmem
          rw [List.take_succ_cons] at hmem
          rcases List.mem_cons.mp hmem with he | he
          · exact hac he.symm
          · exact h1 he
        · exact ⟨t, by simpa using h2⟩

lemma braceSpan_decomp {s m : List Char} (h : braceSpan s = some m) :
    ∃ pre post, s = pre ++ m ++ post ∧ '\x7b' ∉ pre ∧ '\x7d' ∉ post ∧
      m.headD ' ' = '\x7b' ∧ m.reverse.headD ' ' = '\x7d' := by
  rw [braceSpan] at h
  match hi : firstIdxOf '\x7b' s, hjr : firstIdxOf '\x7d' s.reverse with
  | none, _ => rw [hi] at h; simp at h
  | some i, none => rw [hi, hjr] at h; simp at h
  | some i, some jr =>
    rw [hi, hjr] at h
    simp only at h
    by_cases hij : i < s.length - 1 - jr
    · rw [if_pos hij, Option.some_inj] at h
      set j := s.length - 1 - jr with hj
      obtain ⟨hpreA, t1, hdropA⟩ := firstIdxOf_spec hi
      obtain ⟨hpreB, t2, hdropB⟩ := firstIdxOf_spec hjr
      have hjrlt : jr < s.length := by
        by_contra hge
        have : s.reverse.drop jr = [] :=
          List.drop_eq_nil_of_le (by simpa using Nat.le_of_not_lt hge)
        rw [this] at hdropB
        exact List.noConfusion hdropB
      have hj1 : j + 1 = s.length - jr := by omega
      refine ⟨s.take i, s.drop (j + 1), ?_, hpreA, ?_, ?_, ?_⟩
      · have htj : s.take (j + 1) = s.take i ++ m := by
          have : j + 1 = i + (j - i + 1) := by omega
          rw [this, List.take_add, ← h]
        calc s = s.take (j + 1) ++ s.drop (j + 1) :=
              (List.take_append_drop _ _).symm
          _ = s.take i ++ m ++ s.drop (j + 1) := by
              rw [htj]
      · intro hmem
        have hrev : (s.drop (j + 1)).reverse = s.reverse.take jr := by
          rw [List.reverse_drop]
          congr 1
          omega
        have : '\x7d' ∈ (s.drop (j + 1)).reverse := List.mem_reverse.mpr hmem
        rw [hrev] at this
        exact hpreB this
      · rw [← h, hdropA]
        have : j - i + 1 = (j - i) + 1 := rfl
        rw [this, List.take_succ_cons]
        simp
      · have htakerev : (s.take (j + 1)).reverse = '\x7d' :: t2 := by
          rw [List.reverse_take]
          have : s.length - (j + 1) = jr := by omega
          rw [this, hdropB]
        have htj : s.take (j + 1) = s.take i ++ m := by
          have : j + 1 = i + (j - i + 1) := by omega
          rw [this, List.take_add, ← h]
        rw [htj, List.reverse_append] at htakerev
        have hmne : m.reverse ≠ [] := by
          rw [← h, hdropA]
          have : j - i + 1 = (j - i) + 1 := rfl
          rw [this, List.take_succ_cons]
          simp
        have hhd := congrArg (fun l => l.headD ' ') htakerev
        simp only at hhd
        rw [headD_append_of_ne_nil hmne ' '] at hhd
        simpa using hhd
    · rw [if_neg hij] at h
      exact absurd h (by simp)

/-- Brace-balance scan used by `firstBalancedBraceSpan`: accumulates the
scanned characters and closes when the depth returns to zero. -/
def balancedScan : Nat → List Char → Nat → List Char → Option (List Char)
  | 0, _, _, _ => none
  | _ + 1, [], _, _ => none
  | fuel + 1, c :: rest, depth, acc =>
    if c = '\x7b' then balancedScan fuel rest (depth + 1) (c :: acc)
    else if c = '\x7d' then
      if depth = 1 then some (c :: acc).reverse
      else balancedScan fuel rest (depth - 1) (c :: acc)
    else balancedScan fuel rest depth (c :: acc)

/-- Stated from the spec's words, for comparison with the implementation:
"extracts the first balanced `\x7b...\x7d` JSON object from the response
text" — the span from the first `\x7b` to the brace that balances it. -/
def firstBalancedBraceSpan (s : List Char) : Option (List Char) :=
  let t := s.dropWhile (fun c => c ≠ '\x7b')
  balancedScan (t.length + 1) t 0 []

/-- Counterexample to C5 as stated: in a response holding two JSON objects,
the first balanced `\x7b...\x7d` span is exactly the schema-conforming
object — under the claimed behaviour the response would parse — but
`parse_llm_json`, whose regex spans greedily from the first `\x7b` to the
last `\x7d`, raises the invalid-JSON error on this response. -/
theorem parse_llm_json_not_first_balanced :
    firstBalancedBraceSpan
        (str "here \x7b\"cv_match_rate\": 0.8, \"cv_feedback\": \"ok\"\x7d and \x7b\"x\": 1\x7d") =
      some (str "\x7b\"cv_match_rate\": 0.8, \"cv_feedback\": \"ok\"\x7d") ∧
    parse_llm_json (str "\x7b\"cv_match_rate\": 0.8, \"cv_feedback\": \"ok\"\x7d")
        validateCv = .ok ⟨mkRat 8 10, str "ok"⟩ ∧
    parse_llm_json
        (str "here \x7b\"cv_match_rate\": 0.8, \"cv_feedback\": \"ok\"\x7d and \x7b\"x\": 1\x7d")
        validateCv = .error .invalidJSON := by
  refine ⟨by decide, by decide, by decide⟩

/-- C5 (amended): `parse_llm_json` extracts the span from the first `\x7b`
to the last `\x7d` of the response (greedy, so a single JSON object wrapped
in prose is recovered, but a response holding several objects is not); when
no such span exists it falls back to parsing the full response text; the
response `"here you go: ..."` parses to rate 0.8 (= 4/5) and feedback
`"ok"`. -/
theorem parse_llm_json_greedy_span {α : Type}
    (validate : Json → Except PyExn α) (s : List Char) :
    (∀ m, braceSpan s = some m →
      (∃ pre post, s = pre ++ m ++ post ∧ '\x7b' ∉ pre ∧ '\x7d' ∉ post ∧
        m.headD ' ' = '\x7b' ∧ m.reverse.headD ' ' = '\x7d') ∧
      parse_llm_json s validate = (match json_loads m with
        | none => Except.error PyExn.invalidJSON
        | some v => validate v)) ∧
    (braceSpan s = none →
      parse_llm_json s validate = (match json_loads s with
        | none => Except.error PyExn.invalidJSON
        | some v => validate v)) ∧
    parse_llm_json
        (str "here you go: \x7b\"cv_match_rate\": 0.8, \"cv_feedback\": \"ok\"\x7d")
        validateCv = .ok ⟨mkRat 8 10, str "ok"⟩ := by
  refine ⟨?_, ?_, by decide⟩
  · intro m hm
    refine ⟨braceSpan_decomp hm, ?_⟩
    simp only [parse_llm_json, hm]
  · intro hm
    simp only [parse_llm_json, hm]

/-- Witness for C5 (amended): at the example response the extracted span is
the object itself and parsing succeeds. -/
theorem parse_llm_json_greedy_span_witness :
    (∃ pre post,
      str "here you go: \x7b\"cv_match_rate\": 0.8, \"cv_feedback\": \"ok\"\x7d" =
        pre ++ str "\x7b\"cv_match_rate\": 0.8, \"cv_feedback\": \"ok\"\x7d" ++ post ∧
      '\x7b' ∉ pre ∧ '\x7d' ∉ post ∧
      (str "\x7b\"cv_match_rate\": 0.8, \"cv_feedback\": \"ok\"\x7d").headD ' ' = '\x7b' ∧
      (str "\x7b\"cv_match_rate\": 0.8, \"cv_feedback\": \"ok\"\x7d").reverse.headD ' '
        = '\x7d') ∧
    parse_llm_json
        (str "here you go: \x7b\"cv_match_rate\": 0.8, \"cv_feedback\": \"ok\"\x7d")
        validateCv =
      (match json_loads (str "\x7b\"cv_match_rate\": 0.8, \"cv_feedback\": \"ok\"\x7d") with
        | none => Except.error PyExn.invalidJSON
        | some v => validateCv v) :=
  (parse_llm_json_greedy_span validateCv
    (str "here you go: \x7b\"cv_match_rate\": 0.8, \"cv_feedback\": \"ok\"\x7d")).1
    (str "\x7b\"cv_match_rate\": 0.8, \"cv_feedback\": \"ok\"\x7d") (by decide)

/-- One LLM stage of `run_real_evaluation_pipeline` (e.g. lines 295-296 of
`app/services.py`): `call_gemini_with_retry` at its default budget followed
by `parse_llm_json`; also reports how many `generate_content` calls were
made. -/
def llmStage {α : Type} (gen : Nat → Except PyExn (List Char))
    (validate : Json → Except PyExn α) : Except PyExn α × Nat :=
  let r := call_gemini_with_retry gen 3 5
  match r.result with
  | .error e => (.error e, r.calls)
  | .ok s => (parse_llm_json s validate, r.calls)

/-- C6: `parse_llm_json` raises exactly when the extracted text is not
valid JSON (invalid-JSON error, e.g. on `"not json"`) or the parsed value
fails schema validation (schema-mismatch error on a missing or mistyped
required field; `TypeError` on a non-dict value); otherwise it returns the
validated value. A parse failure never triggers another LLM call: when the
LLM answered on the first attempt, the stage made exactly one call whatever
the parse outcome. -/
theorem parse_errors_fatal_not_retried :
    (∀ s : List Char,
      json_loads (match braceSpan s with | some m => m | none => s) = none →
        parse_llm_json s validateCv = .error .invalidJSON) ∧
    (∀ (s : List Char) (v : Json),
      json_loads (match braceSpan s with | some m => m | none => s) = some v →
        parse_llm_json s validateCv = validateCv v) ∧
    (∀ v : Json, (∃ x, validateCv v = .ok x) ∨
      validateCv v = .error .schemaMismatch ∨
      validateCv v = .error .typeError) ∧
    parse_llm_json (str "not json") validateCv = .error .invalidJSON ∧
    parse_llm_json (str "\x7b\"cv_match_rate\": 0.8\x7d") validateCv =
      .error .schemaMismatch ∧
    parse_llm_json (str "\x7b\"cv_match_rate\": null, \"cv_feedback\": \"ok\"\x7d")
        validateCv = .error .schemaMismatch ∧
    (∀ (gen : Nat → Except PyExn (List Char)) (s : List Char),
      gen 0 = Except.ok s →
        llmStage gen validateCv = (parse_llm_json s validateCv, 1)) := by
  refine ⟨?_, ?_, ?_, by decide, by decide, by decide, ?_⟩
  · intro s h
    rw [parse_llm_json]
    rcases hb : braceSpan s with _ | m <;> rw [hb] at h <;> simp [h]
  · intro s v h
    rw [parse_llm_json]
    rcases hb : braceSpan s with _ | m <;> rw [hb] at h <;> simp [h]
  · intro v
    cases v with
    | obj ms =>
      rcases h1 : lookupLast ms (str "cv_match_rate") with _ | v1 <;>
        rcases h2 : lookupLast ms (str "cv_feedback") with _ | v2
      · exact Or.inr (Or.inl (by simp [validateCv, h1]))
      · exact Or.inr (Or.inl (by simp [validateCv, h1]))
      · exact Or.inr (Or.inl (by simp [validateCv, h1, h2]))
      · rcases h3 : coerceFloat v1 with _ | r <;>
          rcases h4 : coerceStr v2 with _ | f
        · exact Or.inr (Or.inl (by simp [validateCv, h1, h2, h3]))
        · exact Or.inr (Or.inl (by simp [validateCv, h1, h2, h3]))
        · exact Or.inr (Or.inl (by simp [validateCv, h1, h2, h3, h4]))
        · exact Or.inl ⟨⟨r, f⟩, by simp [validateCv, h1, h2, h3, h4]⟩
    | null => exact Or.inr (Or.inr rfl)
    | bool b => exact Or.inr (Or.inr rfl)
    | num q => exact Or.inr (Or.inr rfl)
    | str s => exact Or.inr (Or.inr rfl)
    | arr xs => exact Or.inr (Or.inr rfl)
  · intro gen s h
    have hcall : call_gemini_with_retry gen 3 5 = ⟨Except.ok s, 1, []⟩ := by
      simp [call_gemini_with_retry, retryAux, h]
    rw [llmStage, hcall]

/-- Witness for C6: at `"not json"` no brace span exists and the full text
fails to parse; at a pure JSON response the parsed object is validated; an
LLM that answers a non-JSON response on its first attempt leads to exactly
one call. -/
theorem parse_errors_fatal_not_retried_witness :
    parse_llm_json (str "not json") validateCv = .error .invalidJSON ∧
    parse_llm_json (str "\x7b\"cv_match_rate\": 1, \"cv_feedback\": \"a\"\x7d")
        validateCv =
      validateCv (.obj [(str "cv_match_rate", .num 1),
        (str "cv_feedback", .str (str "a"))]) ∧
    llmStage (fun _ => Except.ok (str "not json")) validateCv =
      (parse_llm_json (str "not json") validateCv, 1) :=
  ⟨parse_errors_fatal_not_retried.1 (str "not json") (by rfl),
   parse_errors_fatal_not_retried.2.1
     (str "\x7b\"cv_match_rate\": 1, \"cv_feedback\": \"a\"\x7d")
     (.obj [(str "cv_match_rate", .num 1), (str "cv_feedback", .str (str "a"))])
     (by rfl),
   parse_errors_fatal_not_retried.2.2.2.2.2.2
     (fun _ => Except.ok (str "not json")) (str "not json") rfl⟩

/-! ### query_rag (app/services.py lines 99-124) and the Chroma collection -/

/-- One chunk as stored in the Chroma collection: its id, document text and
`source` metadata. -/
structure DbEntry where
  id : List Char
  document : List Char
  source : List Char
deriving DecidableEq, Repr

/-- Modelled Chroma `collection.query` (external collaborator): restrict the
candidates to entries whose `source` metadata is in `sources`, order them by
the embedding-similarity oracle `rank` for the query text (a reordering of
its input), and return up to `n_results` document texts. -/
def chromaQuery (rank : List Char → List DbEntry → List DbEntry)
    (idx : List DbEntry) (query_text : List Char)
    (sources : List (List Char)) (n_results : Nat) : List (List Char) :=
  ((rank query_text (idx.filter
      (fun e => sources.contains e.source))).take n_results).map
    (fun e => e.document)

/-- Separator `"\n---\n"` joining retrieved documents into one context. -/
def joinWith (sep : List Char) : List (List Char) → List Char
  | [] => []
  | [d] => d
  | d :: e :: ds => d ++ sep ++ joinWith sep (e :: ds)

/-- Function `query_rag(query_text, sources, n_results=5)` of
`app/services.py`: a missing collection (failed startup connection) raises;
otherwise the filtered, similarity-ranked documents are joined with
`"\n---\n"`, no matching documents yielding the empty string. -/
def query_rag (coll : Option (List DbEntry))
    (rank : List Char → List DbEntry → List DbEntry)
    (query_text : List Char) (sources : List (List Char))
    (n_results : Nat := 5) : Except PyExn (List Char) :=
  match coll with
  | none => .error .chromaUnavailable
  | some idx =>
    let docs := chromaQuery rank idx query_text sources n_results
    if docs.isEmpty then .ok [] else .ok (joinWith (str "\n---\n") docs)

/-- C8: when the collection is reachable but no stored chunk's source
matches the filter (in particular when the index is empty), the similarity
query returns an empty result rather than raising, and `query_rag` degrades
to returning the empty string `""` as the context. -/
theorem query_rag_empty_on_no_match (idx : List DbEntry)
    (rank : List Char → List DbEntry → List DbEntry) (qt : List Char)
    (sources : List (List Char)) (n : Nat)
    (hrank : ∀ q l, List.Perm (rank q l) l)
    (hnone : ∀ e ∈ idx, e.source ∉ sources) :
    chromaQuery rank idx qt sources n = [] ∧
    query_rag (some idx) rank qt sources n = .ok [] := by
  have hfilter : idx.filter (fun e => sources.contains e.source) = [] := by
    rw [List.filter_eq_nil_iff]
    intro e he
    simpa using fun hmem => hnone e he hmem
  have hq : chromaQuery rank idx qt sources n = [] := by
    rw [chromaQuery, hfilter]
    have : rank qt [] = [] := (hrank qt []).eq_nil
    rw [this]
    simp
  refine ⟨hq, ?_⟩
  rw [query_rag]
  simp only [hq]
  rfl

/-- Witness for C8: a one-entry index whose source does not match the
`job_description` filter yields the empty context. -/
theorem query_rag_empty_on_no_match_witness :
    chromaQuery (fun _ l => l) [⟨str "i", str "d", str "other"⟩] (str "skills")
        [str "job_description"] 5 = [] ∧
    query_rag (some [⟨str "i", str "d", str "other"⟩]) (fun _ l => l)
        (str "skills") [str "job_description"] 5 = .ok [] :=
  query_rag_empty_on_no_match [⟨str "i", str "d", str "other"⟩] (fun _ l => l)
    (str "skills") [str "job_description"] 5 (fun _ _ => List.Perm.refl _)
    (by decide)

/-! ### generate_document_id (scripts/ingest.py lines 96-97): MD5

Model of `hashlib.md5(text.encode("utf-8")).hexdigest()` per RFC 1321,
over `Nat` bytes and 32-bit words reduced modulo `2 ^ 32`. -/

/-- Truncation to a 32-bit word. -/
def w32 (n : Nat) : Nat := n % 4294967296

/-- 32-bit left rotation (for `x < 2 ^ 32`). -/
def rotl32 (x s : Nat) : Nat := w32 (x * 2 ^ s + x / 2 ^ (32 - s))

/-- UTF-8 encoding of one character. -/
def utf8EncodeChar (c : Char) : List Nat :=
  let n := c.toNat
  if n < 128 then [n]
  else if n < 2048 then [192 + n / 64, 128 + n % 64]
  else if n < 65536 then
    [224 + n / 4096, 128 + (n / 64) % 64, 128 + n % 64]
  else
    [240 + n / 262144, 128 + (n / 4096) % 64, 128 + (n / 64) % 64,
      128 + n % 64]

/-- Python `text.encode("utf-8")` as a byte list. -/
def utf8Encode (s : List Char) : List Nat := (s.map utf8EncodeChar).flatten

/-- RFC 1321 sine-derived constant table. -/
def md5K : List Nat := [
  3614090360, 3905402710, 606105819, 3250441966, 4118548399, 1200080426, 2821735955, 4249261313,
  1770035416, 2336552879, 4294925233, 2304563134, 1804603682, 4254626195, 2792965006, 1236535329,
  4129170786, 3225465664, 643717713, 3921069994, 3593408605, 38016083, 3634488961, 3889429448,
  568446438, 3275163606, 4107603335, 1163531501, 2850285829, 4243563512, 1735328473, 2368359562,
  4294588738, 2272392833, 1839030562, 4259657740, 2763975236, 1272893353, 4139469664, 3200236656,
  681279174, 3936430074, 3572445317, 76029189, 3654602809, 3873151461, 530742520, 3299628645,
  4096336452, 1126891415, 2878612391, 4237533241, 1700485571, 2399980690, 4293915773, 2240044497,
  1873313359, 4264355552, 2734768916, 1309151649, 4149444226, 3174756917, 718787259, 3951481745]

/-- RFC 1321 per-round shift table. -/
def md5S : List Nat := [
  7, 12, 17, 22, 7, 12, 17, 22, 7, 12, 17, 22, 7, 12, 17, 22,
  5, 9, 14, 20, 5, 9, 14, 20, 5, 9, 14, 20, 5, 9, 14, 20,
  4, 11, 16, 23, 4, 11, 16, 23, 4, 11, 16, 23, 4, 11, 16, 23,
  6, 10, 15, 21, 6, 10, 15, 21, 6, 10, 15, 21, 6, 10, 15, 21]

/-- Round mixing function of round `i`. -/
def md5F (i b c d : Nat) : Nat :=
  if i < 16 then (b &&& c) ||| ((b ^^^ 4294967295) &&& d)
  else if i < 32 then (d &&& b) ||| ((d ^^^ 4294967295) &&& c)
  else if i < 48 then b ^^^ c ^^^ d
  else c ^^^ (b ||| (d ^^^ 4294967295))

/-- Message-word index of round `i`. -/
def md5G (i : Nat) : Nat :=
  if i < 16 then i
  else if i < 32 then (5 * i + 1) % 16
  else if i < 48 then (3 * i + 5) % 16
  else (7 * i) % 16

/-- Little-endian 32-bit word `i` of a 64-byte block. -/
def leWord (block : List Nat) (i : Nat) : Nat :=
  block.getD (4 * i) 0 + 256 * block.getD (4 * i + 1) 0 +
    65536 * block.getD (4 * i + 2) 0 + 16777216 * block.getD (4 * i + 3) 0

/-- One MD5 round on the running state `(a, b, c, d)`. -/
def md5Step (M : Nat → Nat) (st : Nat × Nat × Nat × Nat) (i : Nat) :
    Nat × Nat × Nat × Nat :=
  let tmp := w32 (st.1 + md5F i st.2.1 st.2.2.1 st.2.2.2 + md5K.getD i 0 +
    M (md5G i))
  (st.2.2.2, w32 (st.2.1 + rotl32 tmp (md5S.getD i 0)), st.2.1, st.2.2.1)

/-- Processing of one 64-byte block. -/
def md5Block (h : Nat × Nat × Nat × Nat) (block : List Nat) :
    Nat × Nat × Nat × Nat :=
  let st := (List.range 64).foldl (md5Step (leWord block)) h
  (w32 (h.1 + st.1), w32 (h.2.1 + st.2.1), w32 (h.2.2.1 + st.2.2.1),
    w32 (h.2.2.2 + st.2.2.2))

/-- RFC 1321 padding: `0x80`, zeros to 56 mod 64, then the bit length as a
little-endian 64-bit integer. -/
def md5Pad (msg : List Nat) : List Nat :=
  let len := msg.length
  let z := (119 - len % 64) % 64
  let lenBits := (len * 8) % (2 ^ 64)
  msg ++ [128] ++ List.replicate z 0 ++
    (List.range 8).map (fun i => (lenBits / 2 ^ (8 * i)) % 256)

/-- Splitting into 64-byte blocks (`fuel` bounds the recursion). -/
def chunksOf64 : Nat → List Nat → List (List Nat)
  | 0, _ => []
  | _ + 1, [] => []
  | fuel + 1, l => l.take 64 :: chunksOf64 fuel (l.drop 64)

/-- Lowercase hex digit. -/
def hexDigit (n : Nat) : Char :=
  if n < 10 then Char.ofNat (48 + n) else Char.ofNat (87 + n)

/-- Lowercase hex of one 32-bit word, little-endian byte order. -/
def wordLEHex (w : Nat) : List Char :=
  ((List.range 4).map (fun i =>
    [hexDigit ((w / 2 ^ (8 * i)) / 16 % 16), hexDigit ((w / 2 ^ (8 * i)) % 16)])).flatten

/-- MD5 hex digest of a byte list. -/
def md5Hex (msg : List Nat) : List Char :=
  let padded := md5Pad msg
  let h := (chunksOf64 (padded.length + 1) padded).foldl md5Block
    (1732584193, 4023233417, 2562383102, 271733878)
  wordLEHex h.1 ++ wordLEHex h.2.1 ++ wordLEHex h.2.2.1 ++ wordLEHex h.2.2.2

/-- Function `generate_document_id(text_chunk)` of `scripts/ingest.py`:
`hashlib.md5(text_chunk.encode("utf-8")).hexdigest()`. -/
def generate_document_id (text_chunk : List Char) : List Char :=
  md5Hex (utf8Encode text_chunk)

set_option maxRecDepth 10000 in
example : generate_document_id (str "hello") =
    str "5d41402abc4b2a76b9719d911017c592" := by decide

set_option maxRecDepth 10000 in
example : generate_document_id (str "") =
    str "d41d8cd98f00b204e9800998ecf8427e" := by decide

/-! ### ingest_document (app/services.py lines 370-422) and idempotent upsert -/

/-- Ids stored in a collection, in order. -/
def dbIds (coll : List DbEntry) : List (List Char) := coll.map DbEntry.id

/-- Modelled Chroma `collection.upsert` for one `(id, document, metadata)`
triple: overwrite the entry with this id when present (last-writer-wins),
append otherwise. -/
def upsertOne (coll : List DbEntry) (e : DbEntry) : List DbEntry :=
  if coll.any (fun x => x.id = e.id) then
    coll.map (fun x => if x.id = e.id then e else x)
  else coll ++ [e]

/-- Modelled Chroma `collection.upsert` over the parallel id/document/
metadata lists, processed in order. -/
def upsertAll (coll : List DbEntry) (es : List DbEntry) : List DbEntry :=
  es.foldl upsertOne coll

/-- Function `ingest_document(file_bytes, file_name, source_name)` of
`app/services.py`, for an upload whose extracted text is `content`: split
into chunks, give each chunk the content-hash id
`generate_document_id(chunk_text)`, and upsert into the collection.
Returns the new collection and the reported `chunks_added`. -/
def ingest_document (coll : List DbEntry) (content source_name : List Char) :
    List DbEntry × Nat :=
  let chunks := split_text_into_chunks content source_name
  let entries := chunks.map (fun c =>
    DbEntry.mk (generate_document_id c.text) c.text c.source)
  (upsertAll coll entries, entries.length)

lemma upsertOne_present {coll : List DbEntry} {e : DbEntry}
    (h : e.id ∈ dbIds coll) :
    dbIds (upsertOne coll e) = dbIds coll ∧
      (upsertOne coll e).length = coll.length := by
  rw [upsertOne]
  have hany : coll.any (fun x => x.id = e.id) = true := by
    rw [List.any_eq_true]
    obtain ⟨x, hx, hxe⟩ := List.mem_map.mp h
    exact ⟨x, hx, by simp [hxe]⟩
  rw [if_pos hany]
  refine ⟨?_, by simp⟩
  rw [dbIds, dbIds, List.map_map]
  apply List.map_congr_left
  intro x _
  by_cases hxe : x.id = e.id
  · simp [hxe]
  · simp [hxe]

lemma upsertOne_absent {coll : List DbEntry} {e : DbEntry}
    (h : e.id ∉ dbIds coll) : upsertOne coll e = coll ++ [e] := by
  rw [upsertOne, if_neg]
  intro hany
  rw [List.any_eq_true] at hany
  obtain ⟨x, hx, hxe⟩ := hany
  simp only [decide_eq_true_eq] at hxe
  exact h (List.mem_map.mpr ⟨x, hx, hxe⟩)

lemma mem_dbIds_upsertOne (coll : List DbEntry) (e : DbEntry) :
    e.id ∈ dbIds (upsertOne coll e) ∧
      ∀ i ∈ dbIds coll, i ∈ dbIds (upsertOne coll e) := by
  by_cases h : e.id ∈ dbIds coll
  · rw [(upsertOne_present h).1]
    exact ⟨h, fun i hi => hi⟩
  · rw [upsertOne_absent h]
    constructor
    · rw [dbIds, List.map_append]
      simp
    · intro i hi
      rw [dbIds, List.map_append]
      exact List.mem_append.mpr (Or.inl hi)

lemma nodup_dbIds_upsertOne {coll : List DbEntry} (e : DbEntry)
    (h : (dbIds coll).Nodup) : (dbIds (upsertOne coll e)).Nodup := by
  by_cases hm : e.id ∈ dbIds coll
  · rw [(upsertOne_present hm).1]; exact h
  · rw [upsertOne_absent hm, dbIds, List.map_append]
    simp only [List.map_cons, List.map_nil]
    rw [List.nodup_append]
    refine ⟨h, List.nodup_singleton _, ?_⟩
    simpa using fun x hx hxe => hm (List.mem_map.mpr ⟨x, hx, hxe⟩)

lemma upsertAll_invariants : ∀ (es coll : List DbEntry),
    ((dbIds coll).Nodup → (dbIds (upsertAll coll es)).Nodup) ∧
    (∀ i ∈ dbIds coll, i ∈ dbIds (upsertAll coll es)) ∧
    (∀ e ∈ es, e.id ∈ dbIds (upsertAll coll es)) := by
  intro es
  induction es with
  | nil => exact fun coll => ⟨fun h => h, fun i hi => hi, by simp⟩
  | cons e rest ih =>
    intro coll
    have hstep := mem_dbIds_upsertOne coll e
    have hrec := ih (upsertOne coll e)
    refine ⟨?_, ?_, ?_⟩
    · intro hnd
      exact hrec.1 (nodup_dbIds_upsertOne e hnd)
    · intro i hi
      exact hrec.2.1 i (hstep.2 i hi)
    · intro x hx
      rcases List.mem_cons.mp hx with hxe | hxr
      · subst hxe
        exact hrec.2.1 x.id hstep.1
      · exact hrec.2.2 x hxr

lemma upsertAll_of_all_present : ∀ (es coll : List DbEntry),
    (∀ e ∈ es, e.id ∈ dbIds coll) →
    dbIds (upsertAll coll es) = dbIds coll ∧
      (upsertAll coll es).length = coll.length := by
  intro es
  induction es with
  | nil => exact fun coll _ => ⟨rfl, rfl⟩
  | cons e rest ih =>
    intro coll hall
    have hme : e.id ∈ dbIds coll := hall e (by simp)
    have hstep := upsertOne_present hme
    have hrec := ih (upsertOne coll e) (by
      intro x hx
      rw [hstep.1]
      exact hall x (by simp [hx]))
    refine ⟨?_, ?_⟩
    · rw [upsertAll] at hrec ⊢
      rw [List.foldl_cons, hrec.1, hstep.1]
    · rw [upsertAll] at hrec ⊢
      rw [List.foldl_cons, hrec.2, hstep.2]

lemma countP_dbId_eq_one : ∀ {coll : List DbEntry} {i : List Char},
    (dbIds coll).Nodup → i ∈ dbIds coll →
    coll.countP (fun e => e.id = i) = 1 := by
  intro coll
  induction coll with
  | nil => intro i _ hmem; simp [dbIds] at hmem
  | cons x rest ih =>
    intro i hnd hmem
    rw [dbIds, List.map_cons, List.nodup_cons] at hnd
    rw [List.countP_cons]
    by_cases hx : x.id = i
    · have hni : i ∉ rest.map DbEntry.id := by rw [← hx]; exact hnd.1
      have h0 : rest.countP (fun e => e.id = i) = 0 := by
        rw [List.countP_eq_zero]
        intro e he
        simp only [decide_eq_true_eq]
        exact fun hei => hni (List.mem_map.mpr ⟨e, he, hei⟩)
      simp [h0, hx]
    · have hm : i ∈ rest.map DbEntry.id := by
        rw [dbIds, List.map_cons] at hmem
        rcases List.mem_cons.mp hmem with h | h
        · exact absurd h.symm hx
        · exact h
      have := ih hnd.2 hm
      simp [hx, this]

/-- C3: chunk ids are `generate_document_id` of the chunk text alone, so
ingesting the same `(text, source)` twice assigns the same ids both times
and the upserts overwrite instead of duplicating: re-ingestion changes
neither the stored ids nor the collection size, and for each chunk of the
split the index holds exactly one entry under that chunk's id after the
second ingestion. -/
theorem ingest_idempotent (coll : List DbEntry) (content src : List Char)
    (huniq : (dbIds coll).Nodup) :
    (dbIds ((ingest_document ((ingest_document coll content src).1)
        content src).1)).Nodup ∧
    dbIds ((ingest_document ((ingest_document coll content src).1)
        content src).1) =
      dbIds ((ingest_document coll content src).1) ∧
    ((ingest_document ((ingest_document coll content src).1)
        content src).1).length =
      ((ingest_document coll content src).1).length ∧
    ∀ c ∈ split_text_into_chunks content src,
      ((ingest_document ((ingest_document coll content src).1)
          content src).1).countP
        (fun e => e.id = generate_document_id c.text) = 1 := by
  set entries := (split_text_into_chunks content src).map (fun c =>
    DbEntry.mk (generate_document_id c.text) c.text c.source) with hentries
  have h1 : (ingest_document coll content src).1 = upsertAll coll entries :=
    rfl
  have h2 : (ingest_document (upsertAll coll entries) content src).1 =
      upsertAll (upsertAll coll entries) entries := rfl
  have hinv := upsertAll_invariants entries coll
  have hnd1 : (dbIds (upsertAll coll entries)).Nodup := hinv.1 huniq
  have hall : ∀ e ∈ entries, e.id ∈ dbIds (upsertAll coll entries) :=
    hinv.2.2
  have hpres := upsertAll_of_all_present entries (upsertAll coll entries) hall
  rw [h1, h2]
  refine ⟨by rw [hpres.1]; exact hnd1, hpres.1, hpres.2, ?_⟩
  intro c hc
  have hmem : generate_document_id c.text ∈ dbIds (upsertAll coll entries) :=
    hall (DbEntry.mk (generate_document_id c.text) c.text c.source)
      (List.mem_map.mpr ⟨c, hc, rfl⟩)
  apply countP_dbId_eq_one
  · rw [hpres.1]; exact hnd1
  · rw [hpres.1]; exact hmem

/-- Witness for C3: re-ingesting a two-paragraph text into an empty
collection leaves the two hashed chunks stored once each. -/
theorem ingest_idempotent_witness :
    (dbIds ((ingest_document ((ingest_document [] (str "aaa\n\nbbb")
        (str "s")).1) (str "aaa\n\nbbb") (str "s")).1)).Nodup ∧
    dbIds ((ingest_document ((ingest_document [] (str "aaa\n\nbbb")
        (str "s")).1) (str "aaa\n\nbbb") (str "s")).1) =
      dbIds ((ingest_document [] (str "aaa\n\nbbb") (str "s")).1) ∧
    ((ingest_document ((ingest_document [] (str "aaa\n\nbbb")
        (str "s")).1) (str "aaa\n\nbbb") (str "s")).1).length =
      ((ingest_document [] (str "aaa\n\nbbb") (str "s")).1).length ∧
    ∀ c ∈ split_text_into_chunks (str "aaa\n\nbbb") (str "s"),
      ((ingest_document ((ingest_document [] (str "aaa\n\nbbb")
          (str "s")).1) (str "aaa\n\nbbb") (str "s")).1).countP
        (fun e => e.id = generate_document_id c.text) = 1 :=
  ingest_idempotent [] (str "aaa\n\nbbb") (str "s") (by decide)

/-! ### run_real_evaluation_pipeline (app/services.py lines 268-331) -/

/-- Pydantic model `EvaluationResultData` of `app/models.py`. -/
structure EvaluationResultData where
  cv_match_rate : Rat
  cv_feedback : List Char
  project_score : Rat
  project_feedback : List Char
  overall_summary : List Char
deriving DecidableEq, Repr

/-- Externally observable steps of the pipeline, in source order. -/
inductive Step where
  | parseCv | parseReport | ragJd | ragCvRubric | cvLLM | cvParse
  | ragBrief | ragProjRubric | projLLM | projParse | sumLLM | sumParse
deriving DecidableEq, Repr

/-- Full ordered step list of a successful pipeline run. -/
def pipelineOrder : List Step :=
  [.parseCv, .parseReport, .ragJd, .ragCvRubric, .cvLLM, .cvParse,
   .ragBrief, .ragProjRubric, .projLLM, .projParse, .sumLLM, .sumParse]

/-- External behaviour surrounding one run of
`run_real_evaluation_pipeline`: the PDF-extraction results of the two
uploaded documents, the Chroma collection with its similarity ranking, and
the LLM service's per-attempt responses to each stage's prompt. -/
structure PipelineEnv where
  cvPdf : Except PyExn (List Char)
  reportPdf : Except PyExn (List Char)
  coll : Option (List DbEntry)
  rank : List Char → List DbEntry → List DbEntry
  cvGen : Nat → Except PyExn (List Char)
  projGen : Nat → Except PyExn (List Char)
  sumGen : Nat → Except PyExn (List Char)

/-- Function `run_real_evaluation_pipeline(job_id, cv_path, report_path,
job_title)` of `app/services.py`: parse both PDFs, retrieve the four
contexts, and run the CV, project and summary LLM stages in order, each
through `call_gemini_with_retry` and `parse_llm_json`; any raised exception
propagates immediately (the `except` clause re-raises). Returns the result
or the raised exception together with the list of completed steps. -/
def runPipeline (env : PipelineEnv) (job_title : List Char) :
    Except PyExn EvaluationResultData × List Step :=
  match env.cvPdf with
  | .error e => (.error e, [])
  | .ok _cv_text =>
  match env.reportPdf with
  | .error e => (.error e, [.parseCv])
  | .ok _report_text =>
  match query_rag env.coll env.rank (str "skills untuk " ++ job_title)
      [str "job_description"] 5 with
  | .error e => (.error e, [.parseCv, .parseReport])
  | .ok _jd_context =>
  match query_rag env.coll env.rank (str "rubrik penilaian cv")
      [str "cv_rubric"] 5 with
  | .error e => (.error e, [.parseCv, .parseReport, .ragJd])
  | .ok _cv_rubric_context =>
  match (call_gemini_with_retry env.cvGen 3 5).result with
  | .error e => (.error e, [.parseCv, .parseReport, .ragJd, .ragCvRubric])
  | .ok cv_response_str =>
  match parse_llm_json cv_response_str validateCv with
  | .error e =>
    (.error e, [.parseCv, .parseReport, .ragJd, .ragCvRubric, .cvLLM])
  | .ok cv_eval =>
  match query_rag env.coll env.rank (str "persyaratan case study")
      [str "case_study_brief"] 5 with
  | .error e =>
    (.error e,
     [.parseCv, .parseReport, .ragJd, .ragCvRubric, .cvLLM, .cvParse])
  | .ok _brief_context =>
  match query_rag env.coll env.rank (str "rubrik penilaian proyek")
      [str "project_rubric"] 5 with
  | .error e =>
    (.error e,
     [.parseCv, .parseReport, .ragJd, .ragCvRubric, .cvLLM, .cvParse,
      .ragBrief])
  | .ok _project_rubric_context =>
  match (call_gemini_with_retry env.projGen 3 5).result with
  | .error e =>
    (.error e,
     [.parseCv, .parseReport, .ragJd, .ragCvRubric, .cvLLM, .cvParse,
      .ragBrief, .ragProjRubric])
  | .ok project_response_str =>
  match parse_llm_json project_response_str validateProject with
  | .error e =>
    (.error e,
     [.parseCv, .parseReport, .ragJd, .ragCvRubric, .cvLLM, .cvParse,
      .ragBrief, .ragProjRubric, .projLLM])
  | .ok project_eval =>
  match (call_gemini_with_retry env.sumGen 3 5).result with
  | .error e =>
    (.error e,
     [.parseCv, .parseReport, .ragJd, .ragCvRubric, .cvLLM, .cvParse,
      .ragBrief, .ragProjRubric, .projLLM, .projParse])
  | .ok summary_response_str =>
  match parse_llm_json summary_response_str validateSummary with
  | .error e =>
    (.error e,
     [.parseCv, .parseReport, .ragJd, .ragCvRubric, .cvLLM, .cvParse,
      .ragBrief, .ragProjRubric, .projLLM, .projParse, .sumLLM])
  | .ok summary_eval =>
    (.ok ⟨cv_eval.cv_match_rate, cv_eval.cv_feedback,
       project_eval.project_score, project_eval.project_feedback,
       summary_eval.overall_summary⟩,
     pipelineOrder)

/-- C4: pipeline stages run in the fixed order CV → project → summary: the
completed steps are always a prefix of the ordered step list, a result is
returned exactly when every step completed (no partial result otherwise),
and when the CV stage's LLM call fails after its retries the job terminates
with that error, the project and summary stages never running. -/
theorem pipeline_fixed_order_abort (env : PipelineEnv) (job_title : List Char) :
    (runPipeline env job_title).2 <+: pipelineOrder ∧
    ((∃ r, (runPipeline env job_title).1 = Except.ok r) ↔
      (runPipeline env job_title).2 = pipelineOrder) ∧
    (∀ e, (call_gemini_with_retry env.cvGen 3 5).result = Except.error e →
      (∃ ct, env.cvPdf = .ok ct) → (∃ rt, env.reportPdf = .ok rt) →
      (∃ j, query_rag env.coll env.rank (str "skills untuk " ++ job_title)
        [str "job_description"] 5 = .ok j) →
      (∃ r2, query_rag env.coll env.rank (str "rubrik penilaian cv")
        [str "cv_rubric"] 5 = .ok r2) →
      runPipeline env job_title =
        (.error e, [.parseCv, .parseReport, .ragJd, .ragCvRubric])) := by
  have hmain : (runPipeline env job_title).2 <+: pipelineOrder ∧
      ((∃ r, (runPipeline env job_title).1 = Except.ok r) ↔
        (runPipeline env job_title).2 = pipelineOrder) := by
    rcases h1 : env.cvPdf with e | ct
    · constructor
      · simp only [runPipeline, h1]
        exact ⟨_, by rfl⟩
      · simp [runPipeline, h1, pipelineOrder]
    rcases h2 : env.reportPdf with e | rt
    · constructor
      · simp only [runPipeline, h1, h2]
        exact ⟨_, by rfl⟩
      · simp [runPipeline, h1, h2, pipelineOrder]
    rcases h3 : query_rag env.coll env.rank (str "skills untuk " ++ job_title)
        [str "job_description"] 5 with e | jd
    · constructor
      · simp only [runPipeline, h1, h2, h3]
        exact ⟨_, by rfl⟩
      · simp [runPipeline, h1, h2, h3, pipelineOrder]
    rcases h4 : query_rag env.coll env.rank (str "rubrik penilaian cv")
        [str "cv_rubric"] 5 with e | cvr
    · constructor
      · simp only [runPipeline, h1, h2, h3, h4]
        exact ⟨_, by rfl⟩
      · simp [runPipeline, h1, h2, h3, h4, pipelineOrder]
    rcases h5 : (call_gemini_with_retry env.cvGen 3 5).result with e | cvresp
    · constructor
      · simp only [runPipeline, h1, h2, h3, h4, h5]
        exact ⟨_, by rfl⟩
      · simp [runPipeline, h1, h2, h3, h4, h5, pipelineOrder]
    rcases h6 : parse_llm_json cvresp validateCv with e | cveval
    · constructor
      · simp only [runPipeline, h1, h2, h3, h4, h5, h6]
        exact ⟨_, by rfl⟩
      · simp [runPipeline, h1, h2, h3, h4, h5, h6, pipelineOrder]
    rcases h7 : query_rag env.coll env.rank (str "persyaratan case study")
        [str "case_study_brief"] 5 with e | brief
    · constructor
      · simp only [runPipeline, h1, h2, h3, h4, h5, h6, h7]
        exact ⟨_, by rfl⟩
      · simp [runPipeline, h1, h2, h3, h4, h5, h6, h7, pipelineOrder]
    rcases h8 : query_rag env.coll env.rank (str "rubrik penilaian proyek")
        [str "project_rubric"] 5 with e | projr
    · constructor
      · simp only [runPipeline, h1, h2, h3, h4, h5, h6, h7, h8]
        exact ⟨_, by rfl⟩
      · simp [runPipeline, h1, h2, h3, h4, h5, h6, h7, h8, pipelineOrder]
    rcases h9 : (call_gemini_with_retry env.projGen 3 5).result with e | projresp
    · constructor
      · simp only [runPipeline, h1, h2, h3, h4, h5, h6, h7, h8, h9]
        exact ⟨_, by rfl⟩
      · simp [runPipeline, h1, h2, h3, h4, h5, h6, h7, h8, h9, pipelineOrder]
    rcases h10 : parse_llm_json projresp validateProject with e | projeval
    · constructor
      · simp only [runPipeline, h1, h2, h3, h4, h5, h6, h7, h8, h9, h10]
        exact ⟨_, by rfl⟩
      · simp [runPipeline, h1, h2, h3, h4, h5, h6, h7, h8, h9, h10, pipelineOrder]
    rcases h11 : (call_gemini_with_retry env.sumGen 3 5).result with e | sumresp
    · constructor
      · simp only [runPipeline, h1, h2, h3, h4, h5, h6, h7, h8, h9, h10, h11]
        exact ⟨_, by rfl⟩
      · simp [runPipeline, h1, h2, h3, h4, h5, h6, h7, h8, h9, h10, h11, pipelineOrder]
    rcases h12 : parse_llm_json sumresp validateSummary with e | sumeval
    · constructor
      · simp only [runPipeline, h1, h2, h3, h4, h5, h6, h7, h8, h9, h10, h11, h12]
        exact ⟨_, by rfl⟩
      · simp [runPipeline, h1, h2, h3, h4, h5, h6, h7, h8, h9, h10, h11, h12, pipelineOrder]
    constructor
    · simp only [runPipeline, h1, h2, h3, h4, h5, h6, h7, h8, h9, h10, h11, h12]
      exact ⟨[], by simp⟩
    · simp only [runPipeline, h1, h2, h3, h4, h5, h6, h7, h8, h9, h10, h11, h12]
      exact ⟨fun _ => trivial, fun _ => ⟨_, rfl⟩⟩
  refine ⟨hmain.1, hmain.2, ?_⟩
  intro e hcv hct hrt hj hr2
  obtain ⟨ct, hct⟩ := hct
  obtain ⟨rt, hrt⟩ := hrt
  obtain ⟨j, hj⟩ := hj
  obtain ⟨r2, hr2⟩ := hr2
  rw [runPipeline, hct, hrt, hj, hr2, hcv]

/-- Witness for C4: an environment whose CV-stage LLM always fails ends the
job with that error right after the two parses and the two retrievals — the
project and summary stages never run. -/
theorem pipeline_fixed_order_abort_witness :
    runPipeline
        ⟨.ok (str "cv"), .ok (str "rep"), some [], fun _ l => l,
         fun _ => .error .llmUnavailable, fun _ => .ok [], fun _ => .ok []⟩
        (str "Backend Developer") =
      (.error .llmUnavailable,
       [.parseCv, .parseReport, .ragJd, .ragCvRubric]) :=
  (pipeline_fixed_order_abort
      ⟨.ok (str "cv"), .ok (str "rep"), some [], fun _ l => l,
       fun _ => .error .llmUnavailable, fun _ => .ok [], fun _ => .ok []⟩
      (str "Backend Developer")).2.2 .llmUnavailable (by rfl)
    ⟨str "cv", rfl⟩ ⟨str "rep", rfl⟩ ⟨str "", by rfl⟩ ⟨str "", by rfl⟩
